import Mathlib

/-!
Verification of the `react-icons` build script
(`packages/react-icons/scripts/build.js`).

The script converts SVG icon files into generated JS/TS modules.  The
definitions below are a shallow embedding of its pure core:

* the `camelcase` npm package (v5 algorithm) used for attribute keys and
  for pascal-casing file base names, modelled for ASCII input
  (attribute names and icon file names are ASCII in practice; JS
  `toLowerCase`/`toUpperCase` agree with the ASCII case maps there);
* `attrConverter` and `elementToTree` from `convertIconData`
  (build.js lines 25–59), where a JS object is modelled as an
  association list in insertion order (string keys, no duplicates);
* the name-resolution and duplicate-skipping loop of `writeIconModule`
  (build.js lines 135–154);
* `generateIconsEntry` (build.js lines 80–87);
* the manifest projection of `writeIconsManifest` (build.js lines 162–168);
* both variants of `dirInit` — build.js lines 89–124 and the unnamed
  variant's lines 89–132, whose `.gitignore` write is issued without
  `await` or `.catch` — over an abstract file-system oracle.
-/

namespace ReactIcons

/-! ## ASCII character helpers (JS semantics on ASCII) -/

/-- ASCII uppercase letter test, the ASCII case of the JS test
`c.toUpperCase() === c && c.toLowerCase() !== c`. -/
def isUpperA (c : Char) : Bool := 65 ≤ c.toNat && c.toNat ≤ 90

/-- ASCII lowercase letter test, the ASCII case of the JS test
`c.toLowerCase() === c && c.toUpperCase() !== c`. -/
def isLowerA (c : Char) : Bool := 97 ≤ c.toNat && c.toNat ≤ 122

/-- ASCII letter test, `/[a-zA-Z]/.test(c)`. -/
def isAlphaA (c : Char) : Bool := isUpperA c || isLowerA c

/-- ASCII digit test. -/
def isDigitA (c : Char) : Bool := 48 ≤ c.toNat && c.toNat ≤ 57

/-- ASCII case of JS `String.prototype.toUpperCase` on one character. -/
def toUpperA (c : Char) : Char :=
  if isLowerA c then Char.ofNat (c.toNat - 32) else c

/-- ASCII case of JS `String.prototype.toLowerCase` on one character. -/
def toLowerA (c : Char) : Char :=
  if isUpperA c then Char.ofNat (c.toNat + 32) else c

/-- Separator characters of the `camelcase` package: the character class
`[_.\- ]` appearing in its replacement regexes. -/
def isSepA (c : Char) : Bool := c == '_' || c == '.' || c == '-' || c == ' '

/-- JS regex `\w` word characters (ASCII): letters, digits, underscore. -/
def isWordA (c : Char) : Bool := isAlphaA c || isDigitA c || c == '_'

/-- ASCII whitespace recognised by JS `String.prototype.trim`. -/
def isJsSpaceA (c : Char) : Bool :=
  c == ' ' || c == '\t' || c == '\n' || c == '\r' || c == '\x0b' || c == '\x0c'

/-! ## The `camelcase` npm package, v5 algorithm, over `List Char` -/

/-- JS `String.prototype.trim` on an ASCII character list. -/
def trimL (l : List Char) : List Char :=
  ((l.dropWhile isJsSpaceA).reverse.dropWhile isJsSpaceA).reverse

/-- The `preserveCamelCase` loop of the `camelcase` package.

The JS loop walks the string with three flags tracking the last
character; it inserts `'-'` before an uppercase letter that follows a
lowercase one, and inserts `'-'` before the previous character when a
lowercase letter follows two uppercase ones (in the second case the JS
index then re-examines the current character, whose net flag effect is
folded into the recursive call here).  `prev` is the last examined
character, not yet emitted, so that an insertion before it is possible. -/
def pccGo (lL lU lLU : Bool) (prev : Option Char) : List Char → List Char
  | [] => prev.toList
  | c :: rest =>
    if lL && isAlphaA c && isUpperA c then
      prev.toList ++ '-' :: pccGo false true lU (some c) rest
    else if lU && lLU && isAlphaA c && isLowerA c then
      '-' :: prev.toList ++ pccGo true false false (some c) rest
    else
      prev.toList ++ pccGo (isLowerA c) (isUpperA c) lU (some c) rest

/-- The global replacement `/[_.\- ]+(\w|$)/g → p1.toUpperCase()`:
a run of separators followed by a word character collapses to the
uppercased word character; a run at the end of the string is deleted; a
run followed by a non-word character is kept verbatim.  `pend` is the
separator run currently being scanned. -/
def camelizeAux (pend : List Char) : List Char → List Char
  | [] => []
  | c :: rest =>
    if isSepA c then camelizeAux (pend ++ [c]) rest
    else if isWordA c then
      if pend.isEmpty then c :: camelizeAux [] rest
      else toUpperA c :: camelizeAux [] rest
    else pend ++ c :: camelizeAux [] rest

/-- The global replacement `/\d+(\w|$)/g → m.toUpperCase()`: the word
character following a digit run is uppercased (uppercasing the digits
themselves is the identity).  `pend` is the digit run being scanned. -/
def digitAux (pend : List Char) : List Char → List Char
  | [] => pend
  | c :: rest =>
    if isDigitA c then digitAux (pend ++ [c]) rest
    else if pend.isEmpty then c :: digitAux [] rest
    else if isWordA c then pend ++ toUpperA c :: digitAux [] rest
    else pend ++ c :: digitAux [] rest

/-- The `camelcase` package (v5), ASCII model, on a character list.
`pascal` is the `pascalCase` option.  Steps, as in the JS source:
trim; return single characters case-mapped; run `preserveCamelCase`
when an uppercase letter is present; strip leading separators;
lowercase; collapse separator runs; uppercase after digit runs;
finally uppercase the first character when `pascal` is set. -/
def camelcaseL (pascal : Bool) (input : List Char) : List Char :=
  let t := trimL input
  match t with
  | [] => []
  | [c] => if pascal then [toUpperA c] else [toLowerA c]
  | _ :: _ :: _ =>
    let s0 := if t.any isUpperA then pccGo false false false none t else t
    let s1 := (s0.dropWhile isSepA).map toLowerA
    let s2 := digitAux [] (camelizeAux [] s1)
    if pascal then
      match s2 with
      | [] => []
      | c :: r => toUpperA c :: r
    else s2

/-- The npm package call `camelcase(s)` (ASCII model). -/
def camelcase (s : String) : String := ⟨camelcaseL false s.data⟩

/-- The npm package call `camelcase(s, { pascalCase: true })` (ASCII model). -/
def pascalCase (s : String) : String := ⟨camelcaseL true s.data⟩

/-! ## DOM and output tree (`convertIconData`, build.js lines 19–59)

A parsed DOM node as produced by cheerio/htmlparser2 in `xmlMode`:
elements carry a tag name, an attribute object (association list in
source order, keys distinct) and a child list; text and comments have
no `tagName`.  The converted output node has a `tag`, an `attr` object,
and a `child` field that is either absent (`none`, JS `undefined`) or a
list of converted children (possibly empty). -/

inductive DomNode where
  | element (tagName : String) (attribs : List (String × String)) (children : List DomNode)
  | text (s : String)
  | comment (s : String)
deriving Repr

inductive TreeNode where
  | node (tag : String) (attr : List (String × String)) (child : Option (List TreeNode))
deriving Repr

/-- The `tag` field. -/
def TreeNode.tag : TreeNode → String
  | .node t _ _ => t

/-- The `attr` field. -/
def TreeNode.attr : TreeNode → List (String × String)
  | .node _ a _ => a

/-- The `child` field (`none` models JS `undefined`, i.e. field absent). -/
def TreeNode.child : TreeNode → Option (List TreeNode)
  | .node _ _ c => c

/-- The attribute names dropped by `attrConverter` (build.js line 33–36):
`class` always, and additionally `xmlns`, `width`, `height` when the
element's tag name is `svg`. -/
def removedAttrNames (tagName : String) : List String :=
  "class" :: (if tagName = "svg" then ["xmlns", "width", "height"] else [])

/-- JS object assignment `obj[k] = v` on the association-list model:
overwrite in place when the key is present (string keys keep their
original position), append otherwise. -/
def objAssign (obj : List (String × String)) (k v : String) : List (String × String) :=
  if obj.any (fun p => p.1 == k) then
    obj.map (fun p => if p.1 == k then (k, v) else p)
  else obj ++ [(k, v)]

/-- Function `attrConverter` (build.js lines 25–42): drop the removed names, then
rebuild an object keyed by `camelcase` of each remaining name, values
unchanged.  Iterating the pairs of the association list is
`Object.keys` iteration for a JS object with (distinct, non-index)
string keys. -/
def attrConverter (attribs : List (String × String)) (tagName : String) :
    List (String × String) :=
  (attribs.filter (fun p => !((removedAttrNames tagName).contains p.1))).foldl
    (fun obj p => objAssign obj (camelcase p.1) p.2) []

/-- Function `elementToTree` (build.js lines 45–56) on a cheerio collection:
keep only nodes with a truthy `tagName` not equal to `style`; map each
to an output node whose `child` is absent when the DOM child list is
empty and is the recursive conversion otherwise. -/
def elementToTree : List DomNode → List TreeNode
  | [] => []
  | DomNode.element t a c :: rest =>
    if t = "" ∨ t = "style" then elementToTree rest
    else
      TreeNode.node t (attrConverter a t)
          (if c.isEmpty then none else some (elementToTree c)) ::
        elementToTree rest
  | DomNode.text _ :: rest => elementToTree rest
  | DomNode.comment _ :: rest => elementToTree rest

/-- The cheerio selection `$("svg")`: all elements with the given tag
name, in document (pre-order) position. -/
def selectByTag (tagName : String) : List DomNode → List DomNode
  | [] => []
  | DomNode.element t a c :: rest =>
    (if t = tagName then [DomNode.element t a c] else []) ++
      selectByTag tagName c ++ selectByTag tagName rest
  | DomNode.text _ :: rest => selectByTag tagName rest
  | DomNode.comment _ :: rest => selectByTag tagName rest

/-- Function `convertIconData` (build.js lines 19–59) on a parsed document:
convert the `$("svg")` selection and take `tree[0]` (`none` models the
JS `undefined` of an empty selection). -/
def convertIconData (doc : List DomNode) : Option TreeNode :=
  (elementToTree (selectByTag "svg" doc)).head?

/-- All nodes of an output forest, each node followed by its descendants. -/
def allNodesList : List TreeNode → List TreeNode
  | [] => []
  | TreeNode.node t a none :: rest => TreeNode.node t a none :: allNodesList rest
  | TreeNode.node t a (some l) :: rest =>
    TreeNode.node t a (some l) :: (allNodesList l ++ allNodesList rest)

/-! ## Icon sets, name resolution and the `writeIconModule` loop -/

/-- An icon-set descriptor from `../src/icons` (the configuration the
build script iterates over).  `formatter` is the optional per-set name
override, a string-to-string function. -/
structure IconSetDescriptor where
  id : String
  name : String
  files : String
  formatter : Option (String → String)
  projectUrl : String
  license : String
  licenseUrl : String

/-- Node `path.basename(p)` for a POSIX path with a nonempty final
segment: strip trailing slashes, take the last `/`-separated segment. -/
def basenameL (s : List Char) : List Char :=
  ((s.reverse.dropWhile (· == '/')).takeWhile (· != '/')).reverse

/-- Node `path.extname(p)`: the suffix of the basename from its last
dot, empty when there is no dot or the only dot is the leading one. -/
def extnameL (s : List Char) : List Char :=
  let rev := (basenameL s).reverse
  let pre := rev.takeWhile (· != '.')
  if pre.length = rev.length then []
  else if pre.length + 1 = rev.length then []
  else '.' :: pre.reverse

/-- Node `path.basename(file, path.extname(file))` (build.js line 139): the
final path segment with its extension stripped. -/
def basenameNoExtL (s : List Char) : List Char :=
  let b := basenameL s
  b.take (b.length - (extnameL s).length)

/-- The pascal-cased base name of a discovered file (build.js line 140):
`camelcase(rawName, { pascalCase: true })`. -/
def pascalNameOf (file : String) : String :=
  ⟨camelcaseL true (basenameNoExtL file.data)⟩

/-- The resolved exported name (build.js line 141):
`(icon.formatter && icon.formatter(pascalName)) || pascalName`.
A formatter returning the empty string is falsy in JS, so the `||`
falls back to the pascal name. -/
def resolveName (icon : IconSetDescriptor) (file : String) : String :=
  let pascalName := pascalNameOf file
  match icon.formatter with
  | some f => if f pascalName = "" then pascalName else f pascalName
  | none => pascalName

/-- The per-file loop of `writeIconModule` (build.js lines 135–154),
with the file contents abstracted away: `ex` is the `exists` set (a JS
`Set`, modelled as the list of inserted strings).  A file whose
resolved name is already in the set is skipped silently (`continue`);
otherwise the three per-set output files receive a row for it —
represented by the `(name, file)` pair — and both the resolved name
and the raw file path are inserted into the set. -/
def processFiles (icon : IconSetDescriptor) (ex : List String) :
    List String → List (String × String)
  | [] => []
  | file :: rest =>
    let n := resolveName icon file
    if ex.contains n then processFiles icon ex rest
    else (n, file) :: processFiles icon (file :: n :: ex) rest

/-- The rows emitted by `writeIconModule` for one icon set, given the
discovered file list in discovery order: `(resolved name, file)` pairs
in emission order, starting from an empty `exists` set. -/
def writeIconModuleEmits (icon : IconSetDescriptor) (files : List String) :
    List (String × String) :=
  processFiles icon [] files

/-- Modelled from the spec: the per-set duplicate-name rule as the spec
states it — keep exactly the first file (in discovery order) for each
resolved name, skip every later file with a name already kept.  Used as
the reference point for the dedup behaviour of `processFiles`. -/
def firstPerName (icon : IconSetDescriptor) (seen : List String) :
    List String → List String
  | [] => []
  | file :: rest =>
    let n := resolveName icon file
    if seen.contains n then firstPerName icon seen rest
    else file :: firstPerName icon (n :: seen) rest

/-- Function `generateIconsEntry` (build.js lines 80–87): the aggregate-barrel
entry for an icon-set id.  The JS `switch` returns a string for the
`module` and `dts` cases and `undefined` (here `none`) otherwise. -/
def generateIconsEntry (iconId : String) (type : String) : Option String :=
  if type = "module" then some ("export * from \x27./" ++ iconId ++ "\x27;\n")
  else if type = "dts" then some ("export * from \x27./" ++ iconId ++ "\x27;\n")
  else none

/-! ## Manifest projection (`writeIconsManifest`, build.js lines 162–168) -/

/-- One entry of `writeObj`: the object literal
`{ id, name, projectUrl, license, licenseUrl }` built from a
descriptor, as an association list of its fields in source order. -/
def manifestEntryOf (icon : IconSetDescriptor) : List (String × String) :=
  [("id", icon.id), ("name", icon.name), ("projectUrl", icon.projectUrl),
   ("license", icon.license), ("licenseUrl", icon.licenseUrl)]

/-- The value `writeObj = icons.map(...)` of `writeIconsManifest`. -/
def manifestWriteObj (icons : List IconSetDescriptor) : List (List (String × String)) :=
  icons.map manifestEntryOf

/-! ## `dirInit` (build.js lines 89–124) over a file-system oracle -/

/-- A file-system error carrying its `code` property. -/
structure FsError where
  code : String
deriving DecidableEq, Repr

/-- The file-system operations `dirInit` performs, with paths as
segment lists relative to the package root. -/
inductive FsOp where
  | mkdir (path : List String)
  | writeFile (path : List String) (content : String)
deriving DecidableEq, Repr

/-- The `ignore` handler of `dirInit` (build.js lines 90–93) applied as
`.catch(ignore)`: an `EEXIST` rejection resolves, any other rejection
is rethrown. -/
def catchIgnore (r : Except FsError Unit) : Except FsError Unit :=
  match r with
  | .ok _ => .ok ()
  | .error e => if e.code = "EEXIST" then .ok () else .error e

/-- Content written to `<id>/index.js` (build.js line 108). -/
def jsHeader : String :=
  "// THIS FILE IS AUTO GENERATED\nconst \x7b GenIcon \x7d = require(\x27../iconBase\x27)\n"

/-- Content written to `<id>/index.mjs` (build.js line 112). -/
def mjsHeader : String :=
  "// THIS FILE IS AUTO GENERATED\nimport \x7b GenIcon \x7d from \x27../iconBase\x27;\n"

/-- Content written to `<id>/index.d.ts` (build.js line 116). -/
def dtsHeader : String :=
  "import \x7b IconData, IconType \x7d from \x27../iconBase\x27\n// THIS FILE IS AUTO GENERATED\n"

/-- Content of the four pre-seeded aggregate files (build.js lines 120–123). -/
def autoHeader : String := "// THIS FILE IS AUTO GENERATED\n"

/-- The per-icon-set body of `dirInit`'s loop (build.js lines 103–118):
make the subdirectory and pre-seed its three output files, each
operation awaited and wrapped in `.catch(ignore)`. -/
def dirInitIcons (fs : FsOp → Except FsError Unit) :
    List IconSetDescriptor → Except FsError Unit
  | [] => .ok ()
  | icon :: rest => do
    catchIgnore (fs (.mkdir ["lib", icon.id]))
    catchIgnore (fs (.writeFile ["lib", icon.id, "index.js"] jsHeader))
    catchIgnore (fs (.writeFile ["lib", icon.id, "index.mjs"] mjsHeader))
    catchIgnore (fs (.writeFile ["lib", icon.id, "index.d.ts"] dtsHeader))
    dirInitIcons fs rest

/-- Function `dirInit` (build.js lines 89–124): create the output root, run the
per-icon-set loop, then pre-seed the four root aggregate files.  `fs`
is the deterministic file-system oracle giving each operation's result. -/
def dirInit (icons : List IconSetDescriptor) (fs : FsOp → Except FsError Unit) :
    Except FsError Unit := do
  catchIgnore (fs (.mkdir ["lib"]))
  dirInitIcons fs icons
  catchIgnore (fs (.writeFile ["lib", "index.d.ts"] autoHeader))
  catchIgnore (fs (.writeFile ["lib", "index.mjs"] autoHeader))
  catchIgnore (fs (.writeFile ["lib", "all.mjs"] autoHeader))
  catchIgnore (fs (.writeFile ["lib", "all.d.ts"] autoHeader))

/-- The result an operation outcome contributes through `.catch(ignore)`:
`none` when the operation succeeded or failed with `EEXIST` (swallowed),
`some e` when it failed with any other code (rethrown). -/
def fatalErr (r : Except FsError Unit) : Option FsError :=
  match r with
  | .ok _ => none
  | .error e => if e.code = "EEXIST" then none else some e

/-- Turn an optional fatal error into the initialization result. -/
def resultOf (o : Option FsError) : Except FsError Unit :=
  match o with
  | some e => Except.error e
  | none => Except.ok ()

/-- The first operation of `ops` (in order) whose oracle result is a
failure with a code other than `EEXIST`, if any. -/
def firstFatal (fs : FsOp → Except FsError Unit) : List FsOp → Option FsError
  | [] => none
  | op :: ops =>
    match fatalErr (fs op) with
    | some e => some e
    | none => firstFatal fs ops

/-- The awaited operations of one iteration of `dirInit`'s loop
(build.js lines 103–118), in execution order. -/
def dirInitIconOps (icon : IconSetDescriptor) : List FsOp :=
  [.mkdir ["lib", icon.id],
   .writeFile ["lib", icon.id, "index.js"] jsHeader,
   .writeFile ["lib", icon.id, "index.mjs"] mjsHeader,
   .writeFile ["lib", icon.id, "index.d.ts"] dtsHeader]

/-- The awaited operations of `dirInit`'s whole loop, in execution order. -/
def dirInitIconsOps : List IconSetDescriptor → List FsOp
  | [] => []
  | icon :: rest => dirInitIconOps icon ++ dirInitIconsOps rest

/-- All operations of `dirInit` (build.js lines 89–124), in execution
order; every one of them is awaited and wrapped in `.catch(ignore)`. -/
def dirInitOps (icons : List IconSetDescriptor) : List FsOp :=
  FsOp.mkdir ["lib"] :: (dirInitIconsOps icons ++
    [.writeFile ["lib", "index.d.ts"] autoHeader,
     .writeFile ["lib", "index.mjs"] autoHeader,
     .writeFile ["lib", "all.mjs"] autoHeader,
     .writeFile ["lib", "all.d.ts"] autoHeader])

/-! ## The `dirInit` of the unnamed build-script variant
(`src/unnamed/part_000`, lines 89–132)

This variant writes into the package root (`DIST` is the package
directory itself, `LIB` is `lib`), pre-seeds per-set headers that point
at `../lib/iconBase`, writes the four root files from an `initFiles`
list, and — crucially — issues the `.gitignore` write (line 110)
without `await` and without `.catch`: the returned promise is dropped,
so its outcome never joins the awaited chain of the initialization. -/

/-- Content written to `<id>/index.js` (part_000 line 117). -/
def jsHeader0 : String :=
  "// THIS FILE IS AUTO GENERATED\nconst \x7b GenIcon \x7d = require(\x27../lib/iconBase\x27)\n"

/-- Content written to `<id>/index.mjs` (part_000 line 121). -/
def mjsHeader0 : String :=
  "// THIS FILE IS AUTO GENERATED\nimport \x7b GenIcon \x7d from \x27../lib/iconBase\x27;\n"

/-- Content written to `<id>/index.d.ts` (part_000 line 125). -/
def dtsHeader0 : String :=
  "import \x7b IconTree, IconType \x7d from \x27../lib/iconBase\x27\n// THIS FILE IS AUTO GENERATED\n"

/-- The `initFiles` list (part_000 line 104). -/
def initFiles : List String := ["index.d.ts", "index.mjs", "all.mjs", "all.d.ts"]

/-- The generated `.gitignore` content (part_000 lines 106–109):
`["# autogenerated", ...initFiles, ...icons.map(icon => icon.id + "/")].join("\n") + "\n"`. -/
def gitignoreContent (icons : List IconSetDescriptor) : String :=
  String.intercalate "\n"
    ("# autogenerated" :: initFiles ++ icons.map (fun icon => icon.id ++ "/")) ++ "\n"

/-- The per-icon-set body of the unnamed variant's loop
(part_000 lines 112–127), every operation awaited with `.catch(ignore)`. -/
def dirInitUnnamedIcons (fs : FsOp → Except FsError Unit) :
    List IconSetDescriptor → Except FsError Unit
  | [] => .ok ()
  | icon :: rest => do
    catchIgnore (fs (.mkdir [icon.id]))
    catchIgnore (fs (.writeFile [icon.id, "index.js"] jsHeader0))
    catchIgnore (fs (.writeFile [icon.id, "index.mjs"] mjsHeader0))
    catchIgnore (fs (.writeFile [icon.id, "index.d.ts"] dtsHeader0))
    dirInitUnnamedIcons fs rest

/-- The unnamed variant's `dirInit` (part_000 lines 89–132).  The
`.gitignore` write is issued but its result is discarded — the JS code
neither awaits the promise nor attaches a handler, so neither an
`EEXIST` nor any other failure of that write reaches the function's
result.  The four root writes unroll the `for (const file of
initFiles)` loop over the literal `initFiles` list. -/
def dirInitUnnamed (icons : List IconSetDescriptor) (fs : FsOp → Except FsError Unit) :
    Except FsError Unit := do
  catchIgnore (fs (.mkdir []))
  catchIgnore (fs (.mkdir ["lib"]))
  let _unawaited := fs (.writeFile [".gitignore"] (gitignoreContent icons))
  dirInitUnnamedIcons fs icons
  catchIgnore (fs (.writeFile ["index.d.ts"] autoHeader))
  catchIgnore (fs (.writeFile ["index.mjs"] autoHeader))
  catchIgnore (fs (.writeFile ["all.mjs"] autoHeader))
  catchIgnore (fs (.writeFile ["all.d.ts"] autoHeader))

/-- The awaited operations of one iteration of the unnamed variant's
loop, in execution order. -/
def dirInitUnnamedIconOps (icon : IconSetDescriptor) : List FsOp :=
  [.mkdir [icon.id],
   .writeFile [icon.id, "index.js"] jsHeader0,
   .writeFile [icon.id, "index.mjs"] mjsHeader0,
   .writeFile [icon.id, "index.d.ts"] dtsHeader0]

/-- The awaited operations of the unnamed variant's whole loop. -/
def dirInitUnnamedIconsOps : List IconSetDescriptor → List FsOp
  | [] => []
  | icon :: rest => dirInitUnnamedIconOps icon ++ dirInitUnnamedIconsOps rest

/-- The awaited operations of the unnamed variant's `dirInit`, in
execution order.  The fire-and-forget `.gitignore` write is not among
them. -/
def dirInitUnnamedOps (icons : List IconSetDescriptor) : List FsOp :=
  FsOp.mkdir [] :: FsOp.mkdir ["lib"] :: (dirInitUnnamedIconsOps icons ++
    [.writeFile ["index.d.ts"] autoHeader,
     .writeFile ["index.mjs"] autoHeader,
     .writeFile ["all.mjs"] autoHeader,
     .writeFile ["all.d.ts"] autoHeader])

/-! ## Helper lemmas for the two `dirInit` variants -/

theorem catchIgnore_eq (r : Except FsError Unit) :
    catchIgnore r = resultOf (fatalErr r) := by
  match r with
  | .ok () => rfl
  | .error e =>
    rw [catchIgnore, fatalErr]
    by_cases h : e.code = "EEXIST"
    · rw [if_pos h, if_pos h]
      rfl
    · rw [if_neg h, if_neg h]
      rfl

theorem seq_resultOf (o : Option FsError) (k : Except FsError Unit) :
    (resultOf o >>= fun _ => k) =
      match o with
      | some e => Except.error e
      | none => k := by
  cases o <;> rfl

theorem resultOf_firstFatal_cons (fs : FsOp → Except FsError Unit) (op : FsOp)
    (ops : List FsOp) :
    resultOf (firstFatal fs (op :: ops)) =
      match fatalErr (fs op) with
      | some e => Except.error e
      | none => resultOf (firstFatal fs ops) := by
  rw [firstFatal]
  cases fatalErr (fs op) <;> rfl

theorem resultOf_firstFatal_single (fs : FsOp → Except FsError Unit) (op : FsOp) :
    resultOf (firstFatal fs [op]) = resultOf (fatalErr (fs op)) := by
  rw [firstFatal]
  cases fatalErr (fs op) <;> rfl

theorem resultOf_firstFatal_append (fs : FsOp → Except FsError Unit) (l1 l2 : List FsOp) :
    resultOf (firstFatal fs (l1 ++ l2)) =
      match firstFatal fs l1 with
      | some e => Except.error e
      | none => resultOf (firstFatal fs l2) := by
  induction l1 with
  | nil => rfl
  | cons op l1 ih =>
    rw [List.cons_append, resultOf_firstFatal_cons, firstFatal]
    cases h : fatalErr (fs op)
    · exact ih
    · rfl

theorem dirInitIcons_eq (fs : FsOp → Except FsError Unit) :
    ∀ icons : List IconSetDescriptor,
      dirInitIcons fs icons = resultOf (firstFatal fs (dirInitIconsOps icons)) := by
  intro icons
  induction icons with
  | nil => rfl
  | cons icon rest ih =>
    simp only [dirInitIcons, catchIgnore_eq, seq_resultOf, ih, dirInitIconsOps,
      dirInitIconOps, List.cons_append, List.nil_append, resultOf_firstFatal_cons]

theorem dirInit_eq (icons : List IconSetDescriptor) (fs : FsOp → Except FsError Unit) :
    dirInit icons fs = resultOf (firstFatal fs (dirInitOps icons)) := by
  simp only [dirInit, catchIgnore_eq, dirInitIcons_eq, seq_resultOf, dirInitOps,
    resultOf_firstFatal_cons, resultOf_firstFatal_append, resultOf_firstFatal_single]
  rfl

theorem dirInitUnnamedIcons_eq (fs : FsOp → Except FsError Unit) :
    ∀ icons : List IconSetDescriptor,
      dirInitUnnamedIcons fs icons =
        resultOf (firstFatal fs (dirInitUnnamedIconsOps icons)) := by
  intro icons
  induction icons with
  | nil => rfl
  | cons icon rest ih =>
    simp only [dirInitUnnamedIcons, catchIgnore_eq, seq_resultOf, ih,
      dirInitUnnamedIconsOps, dirInitUnnamedIconOps, List.cons_append, List.nil_append,
      resultOf_firstFatal_cons]

theorem dirInitUnnamed_eq (icons : List IconSetDescriptor)
    (fs : FsOp → Except FsError Unit) :
    dirInitUnnamed icons fs = resultOf (firstFatal fs (dirInitUnnamedOps icons)) := by
  simp only [dirInitUnnamed, catchIgnore_eq, dirInitUnnamedIcons_eq, seq_resultOf,
    dirInitUnnamedOps, resultOf_firstFatal_cons, resultOf_firstFatal_append,
    resultOf_firstFatal_single]
  rfl

theorem unnamedIconsOps_no_root_write (icons : List IconSetDescriptor) :
    ∀ (s c : String), FsOp.writeFile [s] c ∉ dirInitUnnamedIconsOps icons := by
  intro s c
  induction icons with
  | nil => simp [dirInitUnnamedIconsOps]
  | cons icon rest ih =>
    intro hmem
    rw [dirInitUnnamedIconsOps] at hmem
    rcases List.mem_append.mp hmem with hmem | hmem
    · simp [dirInitUnnamedIconOps] at hmem
    · exact ih hmem

theorem gitignore_not_in_unnamedOps (icons : List IconSetDescriptor) :
    FsOp.writeFile [".gitignore"] (gitignoreContent icons) ∉ dirInitUnnamedOps icons := by
  intro hmem
  rw [dirInitUnnamedOps] at hmem
  rcases List.mem_cons.mp hmem with h | hmem
  · exact absurd h (by simp)
  rcases List.mem_cons.mp hmem with h | hmem
  · exact absurd h (by simp)
  rcases List.mem_append.mp hmem with hmem | hmem
  · exact unnamedIconsOps_no_root_write icons ".gitignore" _ hmem
  · simp at hmem

theorem firstFatal_none_of_eexist (fs : FsOp → Except FsError Unit)
    (hall : ∀ op e, fs op = .error e → e.code = "EEXIST") :
    ∀ ops : List FsOp, firstFatal fs ops = none := by
  intro ops
  induction ops with
  | nil => rfl
  | cons op rest ih =>
    rw [firstFatal]
    have hf : fatalErr (fs op) = none := by
      cases h : fs op with
      | ok u => rfl
      | error e => rw [fatalErr, if_pos (hall op e h)]
    rw [hf]
    exact ih

/-! ## Claim C10 -/

/-- C10: for every icon-set id, `generateIconsEntry` emits the same
string for the `module` and the `dts` formats, emits a value for those
two formats, and emits no value for any other format argument. -/
theorem iconsEntry_module_dts_agree (iconId : String) :
    generateIconsEntry iconId "module" = generateIconsEntry iconId "dts"
    ∧ (generateIconsEntry iconId "module").isSome = true
    ∧ ∀ type : String, type ≠ "module" → type ≠ "dts" →
        generateIconsEntry iconId type = none := by
  refine ⟨by simp [generateIconsEntry], by simp [generateIconsEntry], ?_⟩
  intro t h1 h2
  simp [generateIconsEntry, h1, h2]

/-- Witness for C10 at `iconId = "fa"` and the format `common`. -/
theorem iconsEntry_module_dts_agree_witness :
    generateIconsEntry "fa" "module" = generateIconsEntry "fa" "dts"
    ∧ (generateIconsEntry "fa" "module").isSome = true
    ∧ generateIconsEntry "fa" "common" = none :=
  ⟨(iconsEntry_module_dts_agree "fa").1, (iconsEntry_module_dts_agree "fa").2.1,
   (iconsEntry_module_dts_agree "fa").2.2 "common" (by decide) (by decide)⟩

/-! ## Claim C7 -/

/-- C7: every written manifest entry is the exact five-field projection
of the corresponding descriptor (`id`, `name`, `projectUrl`, `license`,
`licenseUrl`, in that order, values verbatim), entries appear in
descriptor order and number, and no entry carries a `files` or
`formatter` field. -/
theorem manifest_projection_exact (icons : List IconSetDescriptor) :
    (∀ i : Nat, (manifestWriteObj icons)[i]? = (icons[i]?).map manifestEntryOf)
    ∧ ((manifestWriteObj icons).all fun e =>
        (e.map Prod.fst == ["id", "name", "projectUrl", "license", "licenseUrl"]) &&
        !((e.map Prod.fst).contains "files") && !((e.map Prod.fst).contains "formatter")) = true
    ∧ (manifestWriteObj icons).length = icons.length := by
  refine ⟨fun i => by simp [manifestWriteObj], ?_, by simp [manifestWriteObj]⟩
  rw [List.all_eq_true]
  intro e he
  rcases List.mem_map.mp he with ⟨icon, _, rfl⟩
  rfl

/-! ## Claim C8 -/

/-- Icon set used in the C8 scenario. -/
def probeIcon : IconSetDescriptor :=
  { id := "fa", name := "Font Awesome", files := "*", formatter := none,
    projectUrl := "u", license := "MIT", licenseUrl := "lu" }

/-- The fire-and-forget `.gitignore` write of the unnamed variant, for
one icon set. -/
def gitignoreOp : FsOp :=
  .writeFile [".gitignore"] (gitignoreContent [probeIcon])

/-- Oracle failing exactly the `.gitignore` write, with code `EACCES`. -/
def gitignoreFailFs : FsOp → Except FsError Unit :=
  fun op => if op = gitignoreOp then .error ⟨"EACCES"⟩ else .ok ()

/-- Oracle failing exactly the awaited `mkdir lib`, with code `EACCES`. -/
def mkdirFailFs : FsOp → Except FsError Unit :=
  fun op => if op = FsOp.mkdir ["lib"] then .error ⟨"EACCES"⟩ else .ok ()

/-- C8 is false as stated for the unnamed variant (part_000 lines
89–132): its `.gitignore` write (line 110) is neither awaited nor
caught, so when that write fails with `EACCES` — not `EEXIST` —
initialization still returns success: the failure does not propagate.
By contrast the same failure code on an awaited operation (`mkdir lib`)
does propagate. -/
theorem gitignore_failure_not_propagated :
    gitignoreFailFs gitignoreOp = Except.error ⟨"EACCES"⟩
    ∧ ("EACCES" : String) ≠ "EEXIST"
    ∧ dirInitUnnamed [probeIcon] gitignoreFailFs = Except.ok ()
    ∧ dirInitUnnamed [probeIcon] mkdirFailFs = Except.error ⟨"EACCES"⟩ := by
  refine ⟨?_, by decide, ?_, ?_⟩ <;> rfl

/-- C8 amended: for both `dirInit` variants, the result of
initialization is exactly the first failure, in execution order, of an
*awaited* operation with a code other than `EEXIST` — `EEXIST` failures
are silently ignored and any other awaited failure propagates — while
the unnamed variant's fire-and-forget `.gitignore` write is not among
the awaited operations, so its failure (with any code) does not
propagate.  Consequently, when every operation either succeeds or fails
with `EEXIST` (a pre-existing output tree), both variants succeed, and
a re-run over an unchanged output directory does not fail. -/
theorem dirInit_first_fatal (icons : List IconSetDescriptor)
    (fs : FsOp → Except FsError Unit) :
    dirInit icons fs = resultOf (firstFatal fs (dirInitOps icons))
    ∧ dirInitUnnamed icons fs = resultOf (firstFatal fs (dirInitUnnamedOps icons))
    ∧ FsOp.writeFile [".gitignore"] (gitignoreContent icons) ∉ dirInitUnnamedOps icons
    ∧ ((∀ op e, fs op = .error e → e.code = "EEXIST") →
        dirInit icons fs = .ok () ∧ dirInitUnnamed icons fs = .ok ()) := by
  refine ⟨dirInit_eq icons fs, dirInitUnnamed_eq icons fs,
    gitignore_not_in_unnamedOps icons, fun hall => ?_⟩
  rw [dirInit_eq, dirInitUnnamed_eq, firstFatal_none_of_eexist fs hall,
    firstFatal_none_of_eexist fs hall]
  exact ⟨rfl, rfl⟩

/-- Witness for C8 (amended): one icon set, every operation failing
with `EEXIST` (a fully pre-existing output tree); both variants
succeed. -/
theorem dirInit_first_fatal_witness :
    dirInit [probeIcon] (fun _ => Except.error ⟨"EEXIST"⟩) = Except.ok ()
    ∧ dirInitUnnamed [probeIcon] (fun _ => Except.error ⟨"EEXIST"⟩) = Except.ok () :=
  (dirInit_first_fatal [probeIcon] _).2.2.2 (fun _ e h => by
    injection h with h2
    rw [← h2])

/-! ## Claim C4 -/

/-- C4 counterexample: an icon set whose formatter returns the empty
string.  The claim says the resolved name is whatever string the
formatter returns; the code's `||` treats the empty string as falsy and
falls back to the pascal-cased name instead. -/
def emptyFormatterIcon : IconSetDescriptor :=
  { id := "e", name := "E", files := "*", formatter := some (fun _ => ""),
    projectUrl := "u", license := "l", licenseUrl := "lu" }

/-- C4 is false as stated: for `emptyFormatterIcon` and the file
`a.svg`, the formatter returns `""`, but the resolved name is the
pascal-cased base name `"A"`, not the formatter's result. -/
theorem formatter_empty_result_ignored :
    emptyFormatterIcon.formatter.map (fun f => f (pascalNameOf "a.svg")) = some ""
    ∧ resolveName emptyFormatterIcon "a.svg" = "A"
    ∧ pascalNameOf "a.svg" = "A"
    ∧ ("A" : String) ≠ "" := by
  refine ⟨rfl, by decide, by decide, by decide⟩

/-- C4 amended: with no formatter the resolved name is the pascal-cased
base name; with a formatter returning a non-empty string the resolved
name is the formatter's result; with a formatter returning the empty
string (falsy in JS) the resolved name falls back to the pascal-cased
base name. -/
theorem resolveName_formatter_spec (icon : IconSetDescriptor) (file : String) :
    (icon.formatter = none → resolveName icon file = pascalNameOf file)
    ∧ (∀ f, icon.formatter = some f → f (pascalNameOf file) ≠ "" →
        resolveName icon file = f (pascalNameOf file))
    ∧ (∀ f, icon.formatter = some f → f (pascalNameOf file) = "" →
        resolveName icon file = pascalNameOf file) := by
  refine ⟨fun h => by simp [resolveName, h], fun f h hne => by simp [resolveName, h, hne],
    fun f h he => by simp [resolveName, h, he]⟩

/-- Witness for C4 (amended) at `emptyFormatterIcon` and file `a.svg`. -/
theorem resolveName_formatter_spec_witness :
    resolveName emptyFormatterIcon "a.svg" = pascalNameOf "a.svg" :=
  (resolveName_formatter_spec emptyFormatterIcon "a.svg").2.2 (fun _ => "") rfl rfl

/-! ## Claim C9 -/

/-- Formatter for the path-collision scenario: file `p` resolves to
`Z`, file `q.svg` resolves to `p` — the path of the earlier file. -/
def pathCollisionFormatter : String → String :=
  fun s => if s = "P" then "Z" else if s = "Q" then "p" else s

def pathCollisionIcon : IconSetDescriptor :=
  { id := "t", name := "T", files := "*", formatter := some pathCollisionFormatter,
    projectUrl := "u", license := "l", licenseUrl := "lu" }

/-- C9: processing a file inserts both its resolved name and its raw
path into the per-set seen set.  Concretely: file `p` emits under the
name `Z`; the later file `q.svg` resolves to the name `p` — equal to
the earlier file's path — and is silently skipped even though no
earlier emitted row used that name (the emitted names are `[Z]`);
processed alone, `q.svg` would have emitted. -/
theorem seen_set_contains_paths :
    resolveName pathCollisionIcon "p" = "Z"
    ∧ resolveName pathCollisionIcon "q.svg" = "p"
    ∧ writeIconModuleEmits pathCollisionIcon ["p", "q.svg"] = [("Z", "p")]
    ∧ "p" ∉ (writeIconModuleEmits pathCollisionIcon ["p", "q.svg"]).map Prod.fst
    ∧ writeIconModuleEmits pathCollisionIcon ["q.svg"] = [("p", "q.svg")] := by
  decide

/-! ## Claim C3 -/

/-- Formatter for the dedup counterexample: file `p` resolves to `Z`;
files `q.svg` and `r.svg` both resolve to `p`. -/
def dupNameFormatter : String → String :=
  fun s => if s = "P" then "Z" else if s = "Q" then "p" else if s = "R" then "p" else s

def dupNameIcon : IconSetDescriptor :=
  { id := "d", name := "D", files := "*", formatter := some dupNameFormatter,
    projectUrl := "u", license := "l", licenseUrl := "lu" }

/-- C3 is false as stated: `q.svg` and `r.svg` both resolve to the name
`p`, yet the first of them produces no emitted row — the only emitted
row comes from the file `p` (under the name `Z`), because the seen set
already contains the string `p` as the raw path of that earlier file. -/
theorem duplicate_name_first_file_skipped :
    resolveName dupNameIcon "q.svg" = "p"
    ∧ resolveName dupNameIcon "r.svg" = "p"
    ∧ (writeIconModuleEmits dupNameIcon ["p", "q.svg", "r.svg"]).map Prod.snd = ["p"]
    ∧ "q.svg" ∉ (writeIconModuleEmits dupNameIcon ["p", "q.svg", "r.svg"]).map Prod.snd := by
  decide

theorem processFiles_fst (icon : IconSetDescriptor) :
    ∀ (ex files : List String),
      (processFiles icon ex files).map Prod.fst =
        ((processFiles icon ex files).map Prod.snd).map (resolveName icon) := by
  intro ex files
  induction files generalizing ex with
  | nil => rfl
  | cons file rest ih =>
    rw [processFiles]
    by_cases h : ex.contains (resolveName icon file) = true
    · rw [if_pos h]
      exact ih ex
    · rw [if_neg h]
      simp only [List.map_cons]
      rw [ih]

theorem processFiles_eq_firstPerName (icon : IconSetDescriptor) :
    ∀ (files ex seen : List String),
      (∀ f ∈ files, ex.contains (resolveName icon f) = seen.contains (resolveName icon f)) →
      (∀ f ∈ files, ∀ g ∈ files, resolveName icon f ≠ g) →
      (processFiles icon ex files).map Prod.snd = firstPerName icon seen files := by
  intro files
  induction files with
  | nil => intro ex seen _ _; rfl
  | cons file rest ih =>
    intro ex seen h1 hnp
    have hcur := h1 file (List.mem_cons_self _ _)
    rw [processFiles, firstPerName]
    by_cases hc : seen.contains (resolveName icon file) = true
    · rw [if_pos (hcur.trans hc), if_pos hc]
      exact ih ex seen (fun f hf => h1 f (List.mem_cons_of_mem _ hf))
        (fun f hf g hg => hnp f (List.mem_cons_of_mem _ hf) g (List.mem_cons_of_mem _ hg))
    · rw [if_neg (fun h => hc (hcur.symm.trans h)), if_neg hc, List.map_cons]
      congr 1
      refine ih _ _ (fun f hf => ?_) (fun f hf g hg =>
        hnp f (List.mem_cons_of_mem _ hf) g (List.mem_cons_of_mem _ hg))
      have hmf : (resolveName icon f == file) = false :=
        beq_eq_false_iff_ne.mpr (hnp f (List.mem_cons_of_mem _ hf) file (List.mem_cons_self _ _))
      simp only [List.contains_cons, hmf, Bool.false_or]
      rw [h1 f (List.mem_cons_of_mem _ hf)]

/-- C3 amended: within one icon set, a later file whose resolved name
was already seen is skipped silently; the seen set holds the resolved
names *and the raw paths* of the previously emitted files, so provided
no file's resolved name collides with another discovered file's path,
the emitted files are exactly the first file (in discovery order) for
each resolved name — as computed by the spec-side `firstPerName` — and
each emitted row carries the resolved name of its file.  (Without that
proviso the first file of a duplicated name can itself be skipped, as
the counterexample shows.) -/
theorem writeIconModule_first_wins (icon : IconSetDescriptor) (files : List String)
    (hnp : ∀ f ∈ files, ∀ g ∈ files, resolveName icon f ≠ g) :
    (writeIconModuleEmits icon files).map Prod.snd = firstPerName icon [] files
    ∧ (writeIconModuleEmits icon files).map Prod.fst =
        (firstPerName icon [] files).map (resolveName icon) := by
  have h1 := processFiles_eq_firstPerName icon files [] [] (fun _ _ => rfl) hnp
  exact ⟨h1, by rw [writeIconModuleEmits, processFiles_fst, h1]⟩

/-- Witness for C3 (amended): three files, two of which resolve to the
same name `Ab`; exactly the first of those two emits. -/
theorem writeIconModule_first_wins_witness :
    (writeIconModuleEmits
        { id := "w", name := "W", files := "*", formatter := none,
          projectUrl := "u", license := "l", licenseUrl := "lu" }
        ["ab.svg", "a-b.svg", "c.svg"]).map Prod.snd =
      firstPerName
        { id := "w", name := "W", files := "*", formatter := none,
          projectUrl := "u", license := "l", licenseUrl := "lu" }
        [] ["ab.svg", "a-b.svg", "c.svg"] :=
  (writeIconModule_first_wins _ ["ab.svg", "a-b.svg", "c.svg"] (by decide)).1

/-! ## Claims C2 and C6 -/

theorem elementToTree_cons_element (tag : String) (attribs : List (String × String))
    (children rest : List DomNode) (h : ¬(tag = "" ∨ tag = "style")) :
    elementToTree (DomNode.element tag attribs children :: rest) =
      TreeNode.node tag (attrConverter attribs tag)
          (if children.isEmpty then none else some (elementToTree children)) ::
        elementToTree rest := by
  rw [elementToTree, if_neg h]

/-- C2 counterexample: an element whose only DOM child is a text node
has no qualifying children (the conversion of its child list is empty),
yet its emitted node carries a `child` field holding an empty sequence
rather than no `child` field at all. -/
theorem child_present_without_qualifying_children :
    elementToTree [DomNode.element "g" [] [DomNode.text "x"]] =
      [TreeNode.node "g" [] (some [])]
    ∧ (elementToTree [DomNode.element "g" [] [DomNode.text "x"]]).map TreeNode.child =
      [some []]
    ∧ elementToTree [DomNode.text "x"] = [] := by
  refine ⟨?_, ?_, by rw [elementToTree, elementToTree]⟩ <;>
    simp [elementToTree, attrConverter, removedAttrNames, TreeNode.child]

/-- C2 amended: a converted element's `child` field is absent if and
only if the element's raw DOM child list is empty (text, comment and
`style` children count); when the raw child list is nonempty the field
is present and holds the conversion of the children — the qualifying
children in document order — which is the empty sequence when none
qualify. -/
theorem elementToTree_child_field (tag : String) (attribs : List (String × String))
    (children rest : List DomNode) (h : ¬(tag = "" ∨ tag = "style")) :
    elementToTree (DomNode.element tag attribs children :: rest) =
      TreeNode.node tag (attrConverter attribs tag)
          (if children.isEmpty then none else some (elementToTree children)) ::
        elementToTree rest
    ∧ ((if children.isEmpty then none else some (elementToTree children)) = none
        ↔ children = []) := by
  refine ⟨elementToTree_cons_element tag attribs children rest h, ?_⟩
  by_cases hc : children.isEmpty
  · simp [hc, List.isEmpty_iff.mp hc]
  · simp [hc]
    exact fun h' => hc (by simp [h', List.isEmpty_iff])

/-- Witness for C2 (amended) at the counterexample input. -/
theorem elementToTree_child_field_witness :
    elementToTree [DomNode.element "g" [] [DomNode.text "x"]] =
      TreeNode.node "g" (attrConverter [] "g")
          (if ([DomNode.text "x"] : List DomNode).isEmpty then none
           else some (elementToTree [DomNode.text "x"])) ::
        elementToTree []
    ∧ ((if ([DomNode.text "x"] : List DomNode).isEmpty then none
        else some (elementToTree [DomNode.text "x"])) = none
        ↔ ([DomNode.text "x"] : List DomNode) = []) :=
  elementToTree_child_field "g" [] [DomNode.text "x"] [] (by simp)

/-- C6: no node anywhere in the output forest of `elementToTree` has
tag name `style` — `style` elements are dropped entirely and never
descended into. -/
theorem style_elements_absent (l : List DomNode) :
    ∀ t ∈ allNodesList (elementToTree l), t.tag ≠ "style" := by
  induction l using elementToTree.induct with
  | case1 => intro t ht; simp [elementToTree, allNodesList] at ht
  | case2 tag attribs children rest h ih =>
    intro t ht
    rw [elementToTree, if_pos h] at ht
    exact ih t ht
  | case3 tag attribs children rest h ihc ihr =>
    intro t ht
    rw [elementToTree_cons_element tag attribs children rest h] at ht
    by_cases hc : children.isEmpty
    · rw [if_pos hc, allNodesList] at ht
      rcases List.mem_cons.mp ht with rfl | ht
      · simp only [TreeNode.tag]
        exact fun hst => h (Or.inr hst)
      · exact ihr t ht
    · rw [if_neg hc, allNodesList] at ht
      rcases List.mem_cons.mp ht with rfl | ht
      · simp only [TreeNode.tag]
        exact fun hst => h (Or.inr hst)
      · rcases List.mem_append.mp ht with ht | ht
        · exact ihc t ht
        · exact ihr t ht
  | case4 s rest ih =>
    intro t ht
    rw [elementToTree] at ht
    exact ih t ht
  | case5 s rest ih =>
    intro t ht
    rw [elementToTree] at ht
    exact ih t ht

/-- Witness for C6: the single node emitted for a plain `svg` element. -/
theorem style_elements_absent_witness :
    TreeNode.tag (TreeNode.node "svg" [] none) ≠ "style" :=
  style_elements_absent [DomNode.element "svg" [] []] (TreeNode.node "svg" [] none)
    (by simp [elementToTree, attrConverter, removedAttrNames, allNodesList])

/-! ## Object-assignment lemmas for `attrConverter` -/

theorem objAssign_self_mem (obj : List (String × String)) (k v : String) :
    (k, v) ∈ objAssign obj k v := by
  rw [objAssign]
  by_cases h : obj.any (fun p => p.1 == k) = true
  · rw [if_pos h]
    rcases List.any_eq_true.mp h with ⟨p, hp, hpk⟩
    refine List.mem_map.mpr ⟨p, hp, ?_⟩
    rw [if_pos hpk]
  · rw [if_neg h]
    exact List.mem_append.mpr (Or.inr (List.mem_cons_self _ _))

theorem objAssign_preserve {obj : List (String × String)} {k v : String} (k' v' : String)
    (hmem : (k, v) ∈ obj) (hne : k' ≠ k) :
    (k, v) ∈ objAssign obj k' v' := by
  rw [objAssign]
  by_cases h : obj.any (fun p => p.1 == k') = true
  · rw [if_pos h]
    refine List.mem_map.mpr ⟨(k, v), hmem, ?_⟩
    rw [if_neg]
    simp only [beq_iff_eq]
    exact fun hh => hne hh.symm
  · rw [if_neg h]
    exact List.mem_append.mpr (Or.inl hmem)

theorem foldl_objAssign_keeps (k v : String) :
    ∀ (l acc : List (String × String)),
      (∀ p ∈ l, camelcase p.1 = k → p.2 = v) → (k, v) ∈ acc →
      (k, v) ∈ l.foldl (fun obj p => objAssign obj (camelcase p.1) p.2) acc := by
  intro l
  induction l with
  | nil => intro acc _ h; exact h
  | cons p rest ih =>
    intro acc hall hacc
    rw [List.foldl_cons]
    apply ih _ (fun q hq => hall q (List.mem_cons_of_mem _ hq))
    by_cases hk : camelcase p.1 = k
    · rw [hk, hall p (List.mem_cons_self _ _) hk]
      exact objAssign_self_mem acc k v
    · exact objAssign_preserve _ _ hacc hk

theorem foldl_objAssign_adds (k v : String) :
    ∀ (l acc : List (String × String)) (n : String),
      (n, v) ∈ l → camelcase n = k →
      (∀ p ∈ l, camelcase p.1 = k → p.2 = v) →
      (k, v) ∈ l.foldl (fun obj p => objAssign obj (camelcase p.1) p.2) acc := by
  intro l
  induction l with
  | nil => intro acc n h; simp at h
  | cons p rest ih =>
    intro acc n hmem hk hall
    rw [List.foldl_cons]
    rcases List.mem_cons.mp hmem with heq | hmem'
    · apply foldl_objAssign_keeps k v rest _ (fun q hq => hall q (List.mem_cons_of_mem _ hq))
      subst heq
      show (k, v) ∈ objAssign acc (camelcase n) v
      rw [hk]
      exact objAssign_self_mem _ _ _
    · exact ih _ n hmem' hk (fun q hq => hall q (List.mem_cons_of_mem _ hq))

/-- A retained attribute `(n, v)` whose camel-cased key no other
attribute collides with (except with the same value) appears, under its
camel-cased key and with its original value, in the converted object. -/
theorem mem_attrConverter (attribs : List (String × String)) (tag n v : String)
    (hkept : ((removedAttrNames tag).contains n) = false)
    (hmem : (n, v) ∈ attribs)
    (hnc : ∀ p ∈ attribs, camelcase p.1 = camelcase n → p.2 = v) :
    (camelcase n, v) ∈ attrConverter attribs tag := by
  rw [attrConverter]
  refine foldl_objAssign_adds (camelcase n) v _ [] n ?_ rfl ?_
  · exact List.mem_filter.mpr ⟨hmem, by simpa using hkept⟩
  · intro p hp
    exact hnc p (List.mem_filter.mp hp).1

/-! ## Claim C1 -/

/-- C1 counterexample: in the document
`<svg><svg width="5"/></svg>`, the inner `svg` element is not the root,
yet its `width` attribute is removed — `attrConverter` keys the extra
filtering on the tag name `svg`, not on root position. -/
theorem nestedSvg_width_dropped :
    convertIconData
        [DomNode.element "svg" [] [DomNode.element "svg" [("width", "5")] []]] =
      some (TreeNode.node "svg" [] (some [TreeNode.node "svg" [] none]))
    ∧ attrConverter [("width", "5")] "svg" = [] := by
  constructor
  · simp [convertIconData, selectByTag, elementToTree, attrConverter, removedAttrNames]
  · rfl

/-- C1 amended: the `class`/`xmlns`/`width`/`height` filtering is keyed
on the element's tag name alone — it applies to every element whose tag
is `svg`, at any depth, and to no element with another tag.
Conjunct 1: attributes whose raw name is in the removal list for the
element's tag contribute nothing to the converted object.
Conjuncts 2–3: that list is `class, xmlns, width, height` exactly for
tag `svg` and `class` alone for every other tag.
Conjunct 4: a non-`svg` element keeps a `width`/`height` attribute
(its camel-cased key is itself) with its original value, provided no
other attribute camel-cases onto the same key with a different value.
Conjunct 5: `elementToTree` converts every element, root or nested,
with `attrConverter` applied to the element's own tag. -/
theorem attr_filtering_by_tag :
    (∀ (attribs : List (String × String)) (tag : String),
      attrConverter attribs tag =
        attrConverter (attribs.filter fun p => !((removedAttrNames tag).contains p.1)) tag)
    ∧ removedAttrNames "svg" = ["class", "xmlns", "width", "height"]
    ∧ (∀ tag : String, tag ≠ "svg" → removedAttrNames tag = ["class"])
    ∧ (∀ (attribs : List (String × String)) (tag n v : String), tag ≠ "svg" →
        n = "width" ∨ n = "height" → (n, v) ∈ attribs →
        (∀ p ∈ attribs, camelcase p.1 = n → p.2 = v) →
        (n, v) ∈ attrConverter attribs tag)
    ∧ (∀ (tag : String) (attribs : List (String × String)) (children rest : List DomNode),
        ¬(tag = "" ∨ tag = "style") →
        elementToTree (DomNode.element tag attribs children :: rest) =
          TreeNode.node tag (attrConverter attribs tag)
              (if children.isEmpty then none else some (elementToTree children)) ::
            elementToTree rest) := by
  refine ⟨?_, rfl, ?_, ?_, elementToTree_cons_element⟩
  · intro attribs tag
    rw [attrConverter, attrConverter, List.filter_filter]
    congr 1
    apply List.filter_congr
    intro p _
    rw [Bool.and_self]
  · intro tag h
    rw [removedAttrNames, if_neg h]
  · intro attribs tag n v htag hn hmem hnc
    have hkey : camelcase n = n := by
      rcases hn with rfl | rfl <;> decide
    have hkept : ((removedAttrNames tag).contains n) = false := by
      rw [removedAttrNames, if_neg htag]
      rcases hn with rfl | rfl <;> decide
    have := mem_attrConverter attribs tag n v hkept hmem
      (fun p hp h => hnc p hp (by rw [← hkey]; exact h))
    rwa [hkey] at this

/-- Witness for C1 (amended): a `width` attribute on a `g` element is
kept with its value. -/
theorem attr_filtering_by_tag_witness :
    ("width", "5") ∈ attrConverter [("width", "5")] "g" :=
  attr_filtering_by_tag.2.2.2.1 [("width", "5")] "g" "width" "5" (by decide) (Or.inl rfl)
    (List.mem_cons_self _ _) (by decide)

/-! ## Separator elimination in `camelcase` -/

/-- Adjacency condition on a name: a separator character is never
immediately followed by a character that is neither a separator nor a
word character.  Equivalently, every maximal separator run is followed
by a word character or ends the name — exactly the runs that the
replacement `/[_.\- ]+(\w|$)/g` eliminates. -/
def pairOk (c d : Char) : Bool := !isSepA c || isSepA d || isWordA d

theorem isSepA_toUpperA {c : Char} (h : isSepA c = false) : isSepA (toUpperA c) = false := by
  rw [toUpperA]
  by_cases hl : isLowerA c = true
  · rw [if_pos hl]
    have hb : 97 ≤ c.toNat ∧ c.toNat ≤ 122 := by
      simpa [isLowerA] using hl
    have key : ∀ m, m < 123 → 97 ≤ m → isSepA (Char.ofNat (m - 32)) = false := by decide
    exact key c.toNat (by omega) hb.1
  · rw [if_neg hl]
    exact h

theorem not_lower_of_upper {c : Char} (h : isUpperA c = true) : isLowerA c = false := by
  have hb : 65 ≤ c.toNat ∧ c.toNat ≤ 90 := by simpa [isUpperA] using h
  simp only [isLowerA, Bool.and_eq_false_iff, decide_eq_false_iff_not]
  left
  omega

theorem not_upper_of_lower {c : Char} (h : isLowerA c = true) : isUpperA c = false := by
  have hb : 97 ≤ c.toNat ∧ c.toNat ≤ 122 := by simpa [isLowerA] using h
  simp only [isUpperA, Bool.and_eq_false_iff, decide_eq_false_iff_not]
  right
  omega

theorem isWordA_of_upper {c : Char} (h : isUpperA c = true) : isWordA c = true := by
  simp [isWordA, isAlphaA, h]

theorem isSepA_of_upper {c : Char} (h : isUpperA c = true) : isSepA c = false := by
  have hb : 65 ≤ c.toNat ∧ c.toNat ≤ 90 := by simpa [isUpperA] using h
  rw [isSepA,
    beq_eq_false_iff_ne.mpr (fun hh : c = '_' => absurd (hh ▸ hb) (by decide)),
    beq_eq_false_iff_ne.mpr (fun hh : c = '.' => absurd (hh ▸ hb) (by decide)),
    beq_eq_false_iff_ne.mpr (fun hh : c = '-' => absurd (hh ▸ hb) (by decide)),
    beq_eq_false_iff_ne.mpr (fun hh : c = ' ' => absurd (hh ▸ hb) (by decide))]
  rfl

theorem isSepA_toLowerA (c : Char) : isSepA (toLowerA c) = isSepA c := by
  rw [toLowerA]
  by_cases h : isUpperA c = true
  · rw [if_pos h]
    have hb : 65 ≤ c.toNat ∧ c.toNat ≤ 90 := by simpa [isUpperA] using h
    have key : ∀ m, m < 91 → 65 ≤ m → isSepA (Char.ofNat (m + 32)) = false := by decide
    rw [key c.toNat (by omega) hb.1, isSepA_of_upper h]
  · rw [if_neg h]

theorem isWordA_toLowerA (c : Char) : isWordA (toLowerA c) = isWordA c := by
  rw [toLowerA]
  by_cases h : isUpperA c = true
  · rw [if_pos h]
    have hb : 65 ≤ c.toNat ∧ c.toNat ≤ 90 := by simpa [isUpperA] using h
    have key : ∀ m, m < 91 → 65 ≤ m → isWordA (Char.ofNat (m + 32)) = true := by decide
    rw [key c.toNat (by omega) hb.1, isWordA_of_upper h]
  · rw [if_neg h]

theorem pairOk_toLowerA (c d : Char) :
    pairOk (toLowerA c) (toLowerA d) = pairOk c d := by
  rw [pairOk, pairOk, isSepA_toLowerA, isSepA_toLowerA, isWordA_toLowerA]

theorem pairOk_hyphen_right (c : Char) : pairOk c '-' = true := by
  simp [pairOk, show isSepA '-' = true from rfl]

theorem pccGo_head (lL lU lLU : Bool) (p : Char) (l : List Char) :
    (pccGo lL lU lLU (some p) l).head? = some p ∨
      (pccGo lL lU lLU (some p) l).head? = some '-' := by
  cases l with
  | nil => exact Or.inl rfl
  | cons c rest =>
    rw [pccGo]
    by_cases h1 : (lL && isAlphaA c && isUpperA c) = true
    · rw [if_pos h1]
      exact Or.inl rfl
    · rw [if_neg h1]
      by_cases h2 : (lU && lLU && isAlphaA c && isLowerA c) = true
      · rw [if_pos h2]
        exact Or.inr rfl
      · rw [if_neg h2]
        exact Or.inl rfl

/-- The `preserveCamelCase` pass keeps the adjacency condition: the
hyphens it inserts are placed immediately before letters (before the
uppercase letter in the lower-to-upper case; before the previous
uppercase letter in the upper-upper-lower case), so every new pair is
allowed. -/
theorem pcc_chain :
    ∀ (l : List Char) (lL lU lLU : Bool) (prev : Option Char),
      (match prev with
       | some p => lL = isLowerA p ∧ lU = isUpperA p
       | none => lL = false ∧ lU = false) →
      List.Chain' (fun c d => pairOk c d = true) (prev.toList ++ l) →
      List.Chain' (fun c d => pairOk c d = true) (pccGo lL lU lLU prev l) := by
  intro l
  induction l with
  | nil =>
    intro lL lU lLU prev _ _
    rw [pccGo]
    cases prev with
    | none => exact List.chain'_nil
    | some p => exact List.chain'_singleton p
  | cons c rest ih =>
    intro lL lU lLU prev hinv hch
    rw [pccGo]
    by_cases h1 : (lL && isAlphaA c && isUpperA c) = true
    · rw [if_pos h1]
      have h1' := h1
      rw [Bool.and_eq_true, Bool.and_eq_true] at h1'
      have hcu : isUpperA c = true := h1'.2
      obtain ⟨p, rfl⟩ : ∃ p, prev = some p := by
        cases prev with
        | none => exact absurd (hinv.1 ▸ h1'.1.1) (by simp)
        | some p => exact ⟨p, rfl⟩
      have hrec := ih false true lU (some c)
        ⟨(not_lower_of_upper hcu).symm, hcu.symm⟩ hch.tail
      refine List.chain'_cons.mpr ⟨pairOk_hyphen_right p, List.chain'_cons'.mpr ⟨?_, hrec⟩⟩
      intro y hy
      rcases pccGo_head false true lU c rest with hh | hh <;>
        rw [hh, Option.mem_some_iff] at hy <;> subst hy
      · simp [pairOk, isWordA_of_upper hcu]
      · exact pairOk_hyphen_right '-'
    · rw [if_neg h1]
      by_cases h2 : (lU && lLU && isAlphaA c && isLowerA c) = true
      · rw [if_pos h2]
        have h2' := h2
        rw [Bool.and_eq_true, Bool.and_eq_true, Bool.and_eq_true] at h2'
        have hcl : isLowerA c = true := h2'.2
        obtain ⟨p, rfl⟩ : ∃ p, prev = some p := by
          cases prev with
          | none => exact absurd (hinv.2 ▸ h2'.1.1.1) (by simp)
          | some p => exact ⟨p, rfl⟩
        have hpu : isUpperA p = true := hinv.2 ▸ h2'.1.1.1
        have hrec := ih true false false (some c)
          ⟨hcl.symm, (not_upper_of_lower hcl).symm⟩ hch.tail
        show List.Chain' (fun c d => pairOk c d = true)
          ('-' :: p :: pccGo true false false (some c) rest)
        refine List.chain'_cons.mpr ⟨by simp [pairOk, isWordA_of_upper hpu],
          List.chain'_cons'.mpr ⟨?_, hrec⟩⟩
        intro y hy
        rcases pccGo_head true false false c rest with hh | hh <;>
          rw [hh, Option.mem_some_iff] at hy <;> subst hy
        · exact (List.chain'_cons.mp hch).1
        · exact pairOk_hyphen_right p
      · rw [if_neg h2]
        cases prev with
        | none =>
          exact ih (isLowerA c) (isUpperA c) lU (some c) ⟨rfl, rfl⟩ (by simpa using hch)
        | some p =>
          have hrec := ih (isLowerA c) (isUpperA c) lU (some c) ⟨rfl, rfl⟩ hch.tail
          show List.Chain' (fun c d => pairOk c d = true)
            (p :: pccGo (isLowerA c) (isUpperA c) lU (some c) rest)
          refine List.chain'_cons'.mpr ⟨?_, hrec⟩
          intro y hy
          rcases pccGo_head (isLowerA c) (isUpperA c) lU c rest with hh | hh <;>
            rw [hh, Option.mem_some_iff] at hy <;> subst hy
          · exact (List.chain'_cons.mp hch).1
          · exact pairOk_hyphen_right p

theorem camelizeAux_no_sep :
    ∀ (l pend : List Char), (∀ c ∈ pend, isSepA c = true) →
      List.Chain' (fun c d => pairOk c d = true) (pend ++ l) →
      ∀ c ∈ camelizeAux pend l, isSepA c = false := by
  intro l
  induction l with
  | nil =>
    intro pend _ _ c hc
    rw [camelizeAux] at hc
    simp at hc
  | cons x rest ih =>
    intro pend hpend hchain c hc
    rw [camelizeAux] at hc
    have hrest : List.Chain' (fun c d => pairOk c d = true) rest :=
      hchain.suffix ⟨pend ++ [x], by simp⟩
    by_cases hsx : isSepA x = true
    · rw [if_pos hsx] at hc
      refine ih (pend ++ [x]) (fun d hd => ?_) (by simpa using hchain) c hc
      rcases List.mem_append.mp hd with hd | hd
      · exact hpend d hd
      · rw [List.mem_singleton.mp hd]
        exact hsx
    · rw [if_neg hsx] at hc
      by_cases hwx : isWordA x = true
      · rw [if_pos hwx] at hc
        by_cases hp : pend.isEmpty
        · rw [if_pos hp] at hc
          rcases List.mem_cons.mp hc with rfl | hc
          · exact eq_false_of_ne_true hsx
          · exact ih [] (by simp) hrest c hc
        · rw [if_neg hp] at hc
          rcases List.mem_cons.mp hc with rfl | hc
          · exact isSepA_toUpperA (eq_false_of_ne_true hsx)
          · exact ih [] (by simp) hrest c hc
      · rw [if_neg hwx] at hc
        rcases List.eq_nil_or_concat pend with rfl | ⟨ys, y, rfl⟩
        · rcases List.mem_cons.mp (by simpa using hc) with rfl | hc'
          · exact eq_false_of_ne_true hsx
          · exact ih [] (by simp) hrest c hc'
        · exfalso
          have hlink := (List.chain'_append.mp hchain).2.2
          have hy : isSepA y = true := hpend y (by simp)
          have := hlink y (by simp [List.getLast?_concat]) x (by simp)
          rw [pairOk, hy, eq_false_of_ne_true hsx, eq_false_of_ne_true hwx] at this
          simp at this

theorem digitAux_no_sep :
    ∀ (l pend : List Char), (∀ c ∈ pend, isSepA c = false) →
      (∀ c ∈ l, isSepA c = false) →
      ∀ c ∈ digitAux pend l, isSepA c = false := by
  intro l
  induction l with
  | nil =>
    intro pend hpend _ c hc
    rw [digitAux] at hc
    exact hpend c hc
  | cons x rest ih =>
    intro pend hpend hl c hc
    have hx := hl x (List.mem_cons_self _ _)
    have hl' : ∀ c ∈ rest, isSepA c = false := fun d hd => hl d (List.mem_cons_of_mem _ hd)
    rw [digitAux] at hc
    by_cases hd : isDigitA x = true
    · rw [if_pos hd] at hc
      refine ih (pend ++ [x]) (fun d hd' => ?_) hl' c hc
      rcases List.mem_append.mp hd' with hd' | hd'
      · exact hpend d hd'
      · rw [List.mem_singleton.mp hd']
        exact hx
    · rw [if_neg hd] at hc
      by_cases hp : pend.isEmpty
      · rw [if_pos hp] at hc
        rcases List.mem_cons.mp hc with rfl | hc
        · exact hx
        · exact ih [] (by simp) hl' c hc
      · rw [if_neg hp] at hc
        by_cases hw : isWordA x = true
        · rw [if_pos hw] at hc
          rcases List.mem_append.mp hc with hc | hc
          · exact hpend c hc
          · rcases List.mem_cons.mp hc with rfl | hc
            · exact isSepA_toUpperA hx
            · exact ih [] (by simp) hl' c hc
        · rw [if_neg hw] at hc
          rcases List.mem_append.mp hc with hc | hc
          · exact hpend c hc
          · rcases List.mem_cons.mp hc with rfl | hc
            · exact hx
            · exact ih [] (by simp) hl' c hc

theorem dropWhile_eq_self_of_all {p : Char → Bool} {l : List Char}
    (h : ∀ c ∈ l, p c = false) : l.dropWhile p = l := by
  cases l with
  | nil => rfl
  | cons x xs =>
    rw [List.dropWhile_cons, if_neg]
    simp [h x (List.mem_cons_self _ _)]

theorem trimL_eq_self {l : List Char} (h : ∀ c ∈ l, isJsSpaceA c = false) : trimL l = l := by
  rw [trimL, dropWhile_eq_self_of_all h,
    dropWhile_eq_self_of_all (fun c hc => h c (List.mem_reverse.mp hc)),
    List.reverse_reverse]

theorem not_jsSpace_of_printable {c : Char} (h : 33 ≤ c.toNat) : isJsSpaceA c = false := by
  rw [isJsSpaceA,
    beq_eq_false_iff_ne.mpr (fun hh : c = ' ' => absurd (hh ▸ h) (by decide)),
    beq_eq_false_iff_ne.mpr (fun hh : c = '\t' => absurd (hh ▸ h) (by decide)),
    beq_eq_false_iff_ne.mpr (fun hh : c = '\n' => absurd (hh ▸ h) (by decide)),
    beq_eq_false_iff_ne.mpr (fun hh : c = '\r' => absurd (hh ▸ h) (by decide)),
    beq_eq_false_iff_ne.mpr (fun hh : c = '\x0b' => absurd (hh ▸ h) (by decide)),
    beq_eq_false_iff_ne.mpr (fun hh : c = '\x0c' => absurd (hh ▸ h) (by decide))]
  rfl

/-- Boolean form of the adjacency condition, for evaluation on
concrete names. -/
def pairOkChain : List Char → Bool
  | [] => true
  | [_] => true
  | c :: d :: rest => pairOk c d && pairOkChain (d :: rest)

theorem chain'_of_pairOkChain :
    ∀ {l : List Char}, pairOkChain l = true →
      List.Chain' (fun c d => pairOk c d = true) l
  | [], _ => List.chain'_nil
  | [_], _ => List.chain'_singleton _
  | c :: d :: rest, h => by
    rw [pairOkChain, Bool.and_eq_true] at h
    exact List.chain'_cons.mpr ⟨h.1, chain'_of_pairOkChain h.2⟩

theorem camelcaseL_no_sep (l : List Char)
    (hascii : ∀ c ∈ l, 33 ≤ c.toNat ∧ c.toNat ≤ 126)
    (hlen : 2 ≤ l.length)
    (hchain : List.Chain' (fun c d => pairOk c d = true) l) :
    ∀ c ∈ camelcaseL false l, isSepA c = false := by
  have htrim : trimL l = l :=
    trimL_eq_self (fun c hc => not_jsSpace_of_printable (hascii c hc).1)
  obtain ⟨a, b, l', rfl⟩ : ∃ a b l', l = a :: b :: l' := by
    match l, hlen with
    | a :: b :: l', _ => exact ⟨a, b, l', rfl⟩
  have hred : camelcaseL false (a :: b :: l') =
      digitAux [] (camelizeAux []
        (((if (a :: b :: l').any isUpperA then pccGo false false false none (a :: b :: l')
           else a :: b :: l').dropWhile isSepA).map toLowerA)) := by
    rw [camelcaseL]
    simp only [htrim, Bool.false_eq_true, if_false]
  rw [hred]
  have hs0 : List.Chain' (fun c d => pairOk c d = true)
      (if (a :: b :: l').any isUpperA then pccGo false false false none (a :: b :: l')
       else a :: b :: l') := by
    by_cases h : (a :: b :: l').any isUpperA = true
    · rw [if_pos h]
      exact pcc_chain (a :: b :: l') false false false none ⟨rfl, rfl⟩ hchain
    · rw [if_neg h]
      exact hchain
  have hs1 : List.Chain' (fun c d => pairOk c d = true)
      (((if (a :: b :: l').any isUpperA then pccGo false false false none (a :: b :: l')
         else a :: b :: l').dropWhile isSepA).map toLowerA) := by
    rw [List.chain'_map]
    exact (hs0.suffix (List.dropWhile_suffix isSepA)).imp
      (fun c d h => by rwa [pairOk_toLowerA])
  exact digitAux_no_sep _ [] (by simp)
    (camelizeAux_no_sep _ [] (by simp) hs1)

/-- The camel-cased form of a printable-ASCII name without
badly-placed separator runs contains no separator characters at all
(in particular, no hyphen). -/
theorem camelcase_no_sep (n : String)
    (hascii : n.data.all (fun c => 33 ≤ c.toNat && c.toNat ≤ 126) = true)
    (hlen : 2 ≤ n.data.length)
    (hchain : List.Chain' (fun c d => pairOk c d = true) n.data) :
    ∀ c ∈ (camelcase n).data, isSepA c = false := by
  have h1 : ∀ c ∈ n.data, 33 ≤ c.toNat ∧ c.toNat ≤ 126 := by
    intro c hc
    have := List.all_eq_true.mp hascii c hc
    simpa using this
  exact camelcaseL_no_sep n.data h1 hlen hchain

/-! ## Claim C5 -/

/-- C5 counterexample.  Two failures of the claim as stated:
(1) the retained attribute named `-` (a single hyphen, valid for the
XML parser) keeps its hyphen — `camelcase` returns length-1 inputs
unchanged; (2) when both `fill-opacity` and `fillOpacity` are present,
both camel-case to the key `fillOpacity` and the later value overwrites
the earlier one, so the value stored under the camel-cased key of the
retained attribute `fill-opacity` is not its original value `0.5`. -/
theorem camelcase_hyphen_remains :
    camelcase "-" = "-"
    ∧ attrConverter [("-", "x")] "path" = [("-", "x")]
    ∧ '-' ∈ (camelcase "-").data
    ∧ camelcase "fill-opacity" = "fillOpacity"
    ∧ camelcase "fillOpacity" = "fillOpacity"
    ∧ attrConverter [("fill-opacity", "0.5"), ("fillOpacity", "0.9")] "path" =
        [("fillOpacity", "0.9")] := by
  decide

/-- C5 amended: for a retained attribute `(n, v)` whose name contains a
hyphen, the emitted mapping holds the camel-cased key with the original
value `v`, and that key contains no hyphen, provided: the name is
printable ASCII, has at least two characters, every separator run in it
is followed by a word character or ends the name, and no other
attribute of the element camel-cases onto the same key with a different
value.  (The provisos are forced by the counterexample: a lone `-`
survives camel-casing, and a colliding attribute overwrites the
value.) -/
theorem attrConverter_camelcase_amended (attribs : List (String × String)) (tag n v : String)
    (hmem : (n, v) ∈ attribs)
    (hkept : ((removedAttrNames tag).contains n) = false)
    (hhyph : '-' ∈ n.data)
    (hlen : 2 ≤ n.data.length)
    (hascii : n.data.all (fun c => 33 ≤ c.toNat && c.toNat ≤ 126) = true)
    (hruns : List.Chain' (fun c d => pairOk c d = true) n.data)
    (hnc : ∀ p ∈ attribs, camelcase p.1 = camelcase n → p.2 = v) :
    (camelcase n, v) ∈ attrConverter attribs tag ∧ '-' ∉ (camelcase n).data := by
  refine ⟨mem_attrConverter attribs tag n v hkept hmem hnc, fun hm => ?_⟩
  have := camelcase_no_sep n hascii hlen hruns '-' hm
  simp [isSepA] at this

/-- Witness for C5 (amended) at the attribute `fill-opacity="0.5"` on a
`path` element. -/
theorem attrConverter_camelcase_amended_witness :
    (camelcase "fill-opacity", "0.5") ∈ attrConverter [("fill-opacity", "0.5")] "path"
    ∧ '-' ∉ (camelcase "fill-opacity").data :=
  attrConverter_camelcase_amended [("fill-opacity", "0.5")] "path" "fill-opacity" "0.5"
    (List.mem_cons_self _ _) (by decide) (by decide) (by decide) (by decide)
    (chain'_of_pairOkChain (by decide)) (by decide)

end ReactIcons
